import Mathlib

/-!
# Verification of the USTC-Council-Bot motion and tally engine

A shallow embedding, in Lean 4, of the core voting logic of the
USTC-Council-Bot repository:

* `bot/src/utils/majority.py` — majority-specification parsing
  (`parse_majority`) and the weighted tally check (`has_majority`);
* `bot/src/db/repo.py` — the persistence operations on councils, weights,
  motions and votes (`create_motion`, `get_active_motion`, `end_motion`,
  `cast_vote`, `fetch_votes`, `get_weight_for_member`);
* `bot/src/cogs/motions.py` and `bot/src/cogs/votes.py` — the
  `/motion new`, `/motion kill` and `/vote` command handlers, which
  orchestrate the repository calls.

Python integers are modelled by `ℤ`/`ℕ`; numeric values that may be Python
floats are modelled by `ℚ` (exact value semantics) together, where the claim
is about representation, with an explicit int/float tag (`PyNum`).  The
SQLite tables are modelled as lists of rows; fallible operations return
`Except`.
-/

namespace Votum

/-- The three-valued tally outcome exposed for testability.  The source's
`has_majority` returns a boolean that is consumed only for its truth value
(`votes.py` closes the motion when it is true and otherwise leaves it
pending), so `PASSED` corresponds to `True` and `PENDING` to `False`;
no code path produces `FAILED`. -/
inductive TallyResult
  | PENDING
  | PASSED
  | FAILED
  deriving DecidableEq, Repr

/-- Embedding of `has_majority` from `bot/src/utils/majority.py` (lines
48–65).  Totals are `ℚ` because the Python code passes floats (weighted
sums); the majority numerator/denominator are Python ints.

```python
total_votes = total_yes + total_no + total_abstain
if total_votes <= 0:
    return False
if unanimous:
    return total_no == 0 and total_abstain == 0 and total_yes > 0
return (total_yes * majority_den) >= (total_votes * majority_num)
``` -/
def has_majority (total_yes total_no total_abstain : ℚ)
    (majority_num majority_den : ℤ) (unanimous : Bool) : Bool :=
  let total_votes := total_yes + total_no + total_abstain
  if total_votes ≤ 0 then
    false
  else if unanimous then
    decide (total_no = 0) && decide (total_abstain = 0) && decide (0 < total_yes)
  else
    decide (total_yes * (majority_den : ℚ) ≥ total_votes * (majority_num : ℚ))

/-- The three-valued view of the tally evaluator: the boolean `has_majority`
is the only decision the source computes, and its `False` case leaves the
motion pending (`votes.py` lines 68–85 close the motion exactly when
`has_majority` is true and otherwise change nothing). -/
def evaluate (total_yes total_no total_abstain : ℚ)
    (majority_num majority_den : ℤ) (unanimous : Bool) : TallyResult :=
  if has_majority total_yes total_no total_abstain majority_num majority_den unanimous
  then .PASSED else .PENDING

/-! ## Majority specification parsing (`parse_majority`) -/

/-- ASCII decimal digit, modelling the regex character class `\d` as used by
`re.fullmatch` in `majority.py`. -/
def isAsciiDigit (c : Char) : Bool := decide ('0' ≤ c) && decide (c ≤ '9')

/-- Value of a digit group, modelling Python `int` applied to a regex group. -/
def digitsToNat (ds : List Char) : ℕ :=
  ds.foldl (fun acc c => 10 * acc + (c.toNat - '0'.toNat)) 0

/-- Python `str.strip()`: remove leading and trailing whitespace. -/
def pyStrip (cs : List Char) : List Char :=
  ((cs.dropWhile Char.isWhitespace).reverse.dropWhile Char.isWhitespace).reverse

/-- Whole-string match of the regex `(\d+)/(\d+)` (Python
`re.fullmatch(r"(\d+)/(\d+)", spec)` in `parse_majority`), returning the two
digit groups.  The first group is the maximal leading digit run, exactly as
the regex matches it, since `/` is not a digit. -/
def fracMatch (cs : List Char) : Option (List Char × List Char) :=
  match cs.dropWhile isAsciiDigit with
  | c :: ds2 =>
      if c = '/' ∧ cs.takeWhile isAsciiDigit ≠ [] ∧ ds2 ≠ [] ∧ ds2.all isAsciiDigit then
        some (cs.takeWhile isAsciiDigit, ds2)
      else none
  | [] => none

/-- Whole-string match of the regex `(\d+)(?:\.\d+)?%` (Python
`re.fullmatch(r"(\d+)(?:\.\d+)?%", spec)` in `parse_majority`), returning the
integer digit group and the (possibly empty) fractional digit group. -/
def percMatch (cs : List Char) : Option (List Char × List Char) :=
  if cs.takeWhile isAsciiDigit = [] then none
  else if cs.dropWhile isAsciiDigit = ['%'] then some (cs.takeWhile isAsciiDigit, [])
  else
    match cs.dropWhile isAsciiDigit with
    | c :: rest2 =>
        if c = '.' ∧ rest2.dropWhile isAsciiDigit = ['%'] ∧ rest2.takeWhile isAsciiDigit ≠ [] then
          some (cs.takeWhile isAsciiDigit, rest2.takeWhile isAsciiDigit)
        else none
    | [] => none

/-- Python `round` on a non-negative value: round to the nearest integer,
ties to even (banker's rounding), which is the rounding `int(round(value))`
performs in `parse_majority`. -/
def pythonRound (q : ℚ) : ℤ :=
  let f := ⌊q⌋
  let r := q - (f : ℚ)
  if r < 1/2 then f
  else if 1/2 < r then f + 1
  else if Even f then f else f + 1

/-- Exact value of the numeric part of a percentage specification:
`float(spec.rstrip('%'))` in `parse_majority`, carried as an exact rational
(the decimal literal's value; rounding to the nearest integer is unaffected
for decimal literals of the magnitudes a majority spec can hold). -/
def percValue (ip fp : List Char) : ℚ :=
  (digitsToNat ip : ℚ) + (digitsToNat fp : ℚ) / ((10 : ℚ) ^ fp.length)

/-- Failure values of `parse_majority` (`ValueError` in the source). -/
inductive MajorityError
  | invalidSpecification (msg : String)
  deriving DecidableEq, Repr

/-- Embedding of `parse_majority` from `bot/src/utils/majority.py` (lines
15–45): strip the input, try the fraction regex (rejecting a zero
denominator), then the percentage regex (rounding the numeric part and
returning it over 100), otherwise fail. -/
def parse_majority (spec : String) : Except MajorityError (ℕ × ℕ) :=
  let s := pyStrip spec.data
  match fracMatch s with
  | some (ds1, ds2) =>
      let num := digitsToNat ds1
      let den := digitsToNat ds2
      if den = 0 then .error (.invalidSpecification "Denominator cannot be zero")
      else .ok (num, den)
  | none =>
      match percMatch s with
      | some (ip, fp) => .ok ((pythonRound (percValue ip fp)).toNat, 100)
      | none => .error (.invalidSpecification "Invalid majority specification")

/-! ## Data model: the four relations of the SQLite schema, as lists of rows -/

/-- A vote choice; `votes.py` validates the raw string against exactly these
three values before any database access. -/
inductive Choice
  | yes
  | no
  | abstain
  deriving DecidableEq, Repr

/-- The motion status values used across `repo.py`, `motions.py` and
`votes.py`. -/
inductive MotionStatus
  | active
  | passed
  | failed
  | killed
  | expired
  deriving DecidableEq, Repr

/-- A row of the `councils` table. -/
structure CouncilRow where
  id : ℕ
  guild_id : ℤ
  channel_id : ℤ
  name : String
  deriving DecidableEq, Repr

/-- Target kind of a weight assignment (`target_type` column): the strings
"user" and "role" compared against in `get_weight_for_member`. -/
inductive TargetType
  | user
  | role
  deriving DecidableEq, Repr

/-- A row of the `weights` table; `set_weight` stores an integer weight. -/
structure WeightRow where
  council_id : ℕ
  target_type : TargetType
  target_id : ℤ
  weight : ℤ
  deriving DecidableEq, Repr

/-- A row of the `motions` table, with the columns read and written by
`repo.py`.  Timestamps are opaque naturals. -/
structure MotionRow where
  id : ℕ
  council_id : ℕ
  author_id : ℤ
  text : String
  majority_num : ℤ
  majority_den : ℤ
  unanimous : Bool
  status : MotionStatus
  result : Option String
  created_at : ℕ
  closed_at : Option ℕ
  expires_at : Option ℕ
  deriving DecidableEq, Repr

/-- A row of the `votes` table.  The weight is the float `votes.py` passes to
`cast_vote`, carried as its exact rational value. -/
structure VoteRow where
  motion_id : ℕ
  user_id : ℤ
  vote : Choice
  reason : Option String
  weight : ℚ
  deriving DecidableEq, Repr

/-- The database state: the four relations consulted by the motion and vote
operations. -/
structure DBState where
  councils : List CouncilRow
  weights : List WeightRow
  motions : List MotionRow
  votes : List VoteRow
  deriving Repr

/-! ## Repository operations (`bot/src/db/repo.py`) -/

/-- Embedding of `get_council_by_channel` (repo.py lines 20–26): the
council row whose `channel_id` matches. -/
def get_council_by_channel (s : DBState) (channel_id : ℤ) : Option CouncilRow :=
  s.councils.find? (fun c => decide (c.channel_id = channel_id))

/-- Modelled from the spec: `schema.sql` (the `motions` table definition,
including the default of its `status` column) is not under `src/`; the spec
states that propose "creates the Motion in `active` state" with `closed_at`
null while active, so a freshly inserted motion row carries status `active`,
no result and no `closed_at`. -/
def newMotionStatus : MotionStatus := .active

/-- SQLite `lastrowid` for an insert into `motions`: one more than the
largest existing rowid (motions are never deleted). -/
def nextMotionId (motions : List MotionRow) : ℕ :=
  (motions.foldl (fun acc m => max acc m.id) 0) + 1

/-- Embedding of `create_motion` (repo.py lines 138–154): unconditionally
insert a new motion row — the function performs no check for an existing
active motion — and return its id. -/
def create_motion (s : DBState) (council_id : ℕ) (author_id : ℤ) (text : String)
    (majority_num majority_den : ℤ) (unanimous : Bool) (expires_at : Option ℕ)
    (now : ℕ) : DBState × ℕ :=
  let mid := nextMotionId s.motions
  ({ s with motions := s.motions ++
      [{ id := mid, council_id := council_id, author_id := author_id, text := text,
         majority_num := majority_num, majority_den := majority_den,
         unanimous := unanimous, status := newMotionStatus, result := none,
         created_at := now, closed_at := none, expires_at := expires_at }] }, mid)

/-- Row predicate of the `WHERE council_id = ? AND status = 'active'` filter
in `get_active_motion`. -/
def isActiveFor (council_id : ℕ) (m : MotionRow) : Bool :=
  decide (m.council_id = council_id) && decide (m.status = .active)

/-- Embedding of `get_active_motion` (repo.py lines 157–177):
`SELECT ... WHERE council_id = ? AND status = 'active' ORDER BY id DESC
LIMIT 1` — the active motion of the council with the greatest id, if any
(ids are unique, so the `ORDER BY` tie behaviour is irrelevant). -/
def get_active_motion (s : DBState) (council_id : ℕ) : Option MotionRow :=
  (s.motions.filter (isActiveFor council_id)).argmax MotionRow.id

/-- Embedding of `end_motion` (repo.py lines 180–185): an unconditional
`UPDATE motions SET status = ?, result = ?, closed_at = COALESCE(?,
CURRENT_TIMESTAMP) WHERE id = ?` — no check of the current status. -/
def end_motion (s : DBState) (motion_id : ℕ) (status : MotionStatus)
    (result : Option String) (closed_at : Option ℕ) (now : ℕ) : DBState :=
  { s with motions := s.motions.map (fun m =>
      if m.id = motion_id then
        { m with status := status, result := result,
                 closed_at := some (closed_at.getD now) }
      else m) }

/-- Row predicate for the `(motion_id, user_id)` key of the `votes` table. -/
def voteKeyMatches (motion_id : ℕ) (user_id : ℤ) (v : VoteRow) : Bool :=
  decide (v.motion_id = motion_id) && decide (v.user_id = user_id)

/-- The list-level upsert of `cast_vote` (repo.py lines 188–202):
`INSERT ... ON CONFLICT(motion_id, user_id) DO UPDATE SET vote=excluded.vote,
reason=excluded.reason, weight=excluded.weight`.  Modelled from the spec for
the part of the schema not under `src/`: the `ON CONFLICT` clause presupposes
the unique index on `(motion_id, user_id)` declared in the missing
`schema.sql` (spec §3/§6: votes unique on that pair), so a conflicting row is
updated in place and otherwise the row is appended. -/
def upsertVote (l : List VoteRow) (motion_id : ℕ) (user_id : ℤ) (vote : Choice)
    (reason : Option String) (weight : ℚ) : List VoteRow :=
  if l.any (voteKeyMatches motion_id user_id) then
    l.map (fun v =>
      if voteKeyMatches motion_id user_id v then
        { v with vote := vote, reason := reason, weight := weight }
      else v)
  else
    l ++ [{ motion_id := motion_id, user_id := user_id, vote := vote,
            reason := reason, weight := weight }]

/-- Embedding of `cast_vote` on the database state. -/
def cast_vote (s : DBState) (motion_id : ℕ) (user_id : ℤ) (vote : Choice)
    (reason : Option String) (weight : ℚ) : DBState :=
  { s with votes := upsertVote s.votes motion_id user_id vote reason weight }

/-- Embedding of `fetch_votes` (repo.py lines 205–221): all vote rows of a
motion. -/
def fetch_votes (s : DBState) (motion_id : ℕ) : List VoteRow :=
  s.votes.filter (fun v => decide (v.motion_id = motion_id))

/-- Python numbers as they flow through `get_weight_for_member` and the
tally: tagged by runtime type (`int` vs `float`), the payload being the exact
value (integer-valued float arithmetic at these magnitudes is exact, so the
tag alone distinguishes representation). -/
inductive PyNum
  | intVal (z : ℤ)
  | floatVal (q : ℚ)
  deriving DecidableEq, Repr

/-- Numeric value of a tagged Python number. -/
def PyNum.toRat : PyNum → ℚ
  | .intVal z => (z : ℚ)
  | .floatVal q => q

/-- Whether the tagged number is a Python float. -/
def PyNum.isFloat : PyNum → Bool
  | .intVal _ => false
  | .floatVal _ => true

/-- Python addition: `int + int` is an `int`; any operand being a `float`
makes the result a `float`. -/
def PyNum.add : PyNum → PyNum → PyNum
  | .intVal a, .intVal b => .intVal (a + b)
  | a, b => .floatVal (a.toRat + b.toRat)

/-- Embedding of `get_weight_for_member` (repo.py lines 101–132): sum the
matching user and role weights into an accumulator initialised to the float
`0.0`, returning the float `1.0` when the sum is not positive.

```python
total = 0.0
for target_type, target_id, weight in rows:
    if target_type == "user" and target_id == user_id:
        total += weight
    elif target_type == "role" and target_id in role_ids:
        total += weight
return total if total > 0 else 1.0
``` -/
def get_weight_for_member (weights : List WeightRow) (council_id : ℕ)
    (user_id : ℤ) (role_ids : List ℤ) : PyNum :=
  let rows := weights.filter (fun w => decide (w.council_id = council_id))
  let total := rows.foldl (fun acc w =>
      if w.target_type = .user ∧ w.target_id = user_id then acc.add (.intVal w.weight)
      else if w.target_type = .role ∧ w.target_id ∈ role_ids then acc.add (.intVal w.weight)
      else acc) (.floatVal 0)
  if (0 : ℚ) < total.toRat then total else .floatVal 1

/-! ## Command operations (`bot/src/cogs/motions.py`, `bot/src/cogs/votes.py`) -/

/-- The user-facing failure modes of the command handlers (each is an
ephemeral error message and an early return in the source). -/
inductive CmdError
  | notACouncil
  | noActiveMotion
  | invalidMajority
  | notAuthorized
  deriving DecidableEq, Repr

/-- Weighted total of the votes with a given choice: the
`sum(v["weight"] for v in votes if v["vote"] == ...)` computations in
`votes.py` lines 64–66. -/
def weightedTotal (votes : List VoteRow) (c : Choice) : ℚ :=
  (votes.filter (fun v => decide (v.vote = c))).foldl (fun acc v => acc + v.weight) 0

/-- Embedding of the `/motion new` handler (motions.py lines 57–89): look up
the council, parse the majority (defaulting to 1/2), and create the motion.
The handler performs no check for an already-active motion. -/
def motion_new (s : DBState) (channel_id : ℤ) (author_id : ℤ) (text : String)
    (majority : Option String) (unanimous : Bool) (now : ℕ) :
    Except CmdError (DBState × ℕ) :=
  match get_council_by_channel s channel_id with
  | none => .error .notACouncil
  | some council =>
      match majority with
      | some spec =>
          match parse_majority spec with
          | .error _ => .error .invalidMajority
          | .ok (num, den) =>
              .ok (create_motion s council.id author_id text (num : ℤ) (den : ℤ)
                unanimous none now)
      | none =>
          .ok (create_motion s council.id author_id text 1 2 unanimous none now)

/-- Embedding of the `/motion kill` handler (motions.py lines 91–107): look
up the council and its active motion, check that the caller is the proposer
or an admin, and end the motion as killed. -/
def motion_kill (s : DBState) (channel_id : ℤ) (user_id : ℤ) (is_admin : Bool)
    (now : ℕ) : Except CmdError DBState :=
  match get_council_by_channel s channel_id with
  | none => .error .notACouncil
  | some council =>
      match get_active_motion s council.id with
      | none => .error .noActiveMotion
      | some motion =>
          if user_id = motion.author_id ∨ is_admin then
            .ok (end_motion s motion.id .killed (some "killed") none now)
          else .error .notAuthorized

/-- Result reported by the `/vote` handler: which motion the vote landed on
and whether the handler closed it as passed. -/
structure VoteOutcome where
  motion_id : ℕ
  passed : Bool
  deriving DecidableEq, Repr

/-- Embedding of the `/vote` handler (votes.py lines 40–85): look up the
council and its active motion, resolve the caller's weight, upsert the vote,
recompute the weighted totals over all stored votes of the motion, and end
the motion as passed exactly when `has_majority` reports the threshold
reached. -/
def vote_cmd (s : DBState) (channel_id : ℤ) (user_id : ℤ) (role_ids : List ℤ)
    (choice : Choice) (reason : Option String) (now : ℕ) :
    Except CmdError (DBState × VoteOutcome) :=
  match get_council_by_channel s channel_id with
  | none => .error .notACouncil
  | some council =>
      match get_active_motion s council.id with
      | none => .error .noActiveMotion
      | some motion =>
          let weight := (get_weight_for_member s.weights council.id user_id role_ids).toRat
          let s1 := cast_vote s motion.id user_id choice reason weight
          let votes := fetch_votes s1 motion.id
          let total_yes := weightedTotal votes .yes
          let total_no := weightedTotal votes .no
          let total_abstain := weightedTotal votes .abstain
          if has_majority total_yes total_no total_abstain
              motion.majority_num motion.majority_den motion.unanimous then
            .ok (end_motion s1 motion.id .passed (some "passed") none now,
                 { motion_id := motion.id, passed := true })
          else
            .ok (s1, { motion_id := motion.id, passed := false })

/-- The `(motion_id, user_id)` key of a vote row. -/
def VoteKey (v : VoteRow) : ℕ × ℤ := (v.motion_id, v.user_id)

/-- Well-formedness of the `votes` table: the unique index on
`(motion_id, user_id)` (spec §3/§6) means the stored keys are distinct. -/
def VotesWF (l : List VoteRow) : Prop := (l.map VoteKey).Nodup

/-- One `castVote` request by a fixed voter on a fixed motion: the varying
arguments of `cast_vote`. -/
structure CastReq where
  vote : Choice
  reason : Option String
  weight : ℚ
  deriving DecidableEq, Repr

/-- A sequence of `cast_vote` calls by one voter on one motion. -/
def castSeq (s : DBState) (motion_id : ℕ) (user_id : ℤ) : List CastReq → DBState
  | [] => s
  | c :: cs =>
      castSeq (cast_vote s motion_id user_id c.vote c.reason c.weight) motion_id user_id cs

/-! ## Concrete states used by witnesses and counterexamples -/

/-- A council bound to channel 100. -/
def councilA : CouncilRow :=
  { id := 1, guild_id := 10, channel_id := 100, name := "General" }

/-- An active motion of council 1 with the default simple majority. -/
def motionOne : MotionRow :=
  { id := 1, council_id := 1, author_id := 7, text := "first",
    majority_num := 1, majority_den := 2, unanimous := false,
    status := .active, result := none, created_at := 1, closed_at := none,
    expires_at := none }

/-- A second active motion of council 1. -/
def motionTwo : MotionRow :=
  { motionOne with id := 2, author_id := 8, text := "second", created_at := 2 }

/-- A passed (terminal) motion of council 1. -/
def motionClosed : MotionRow :=
  { motionOne with
    status := .passed
    result := some "passed"
    closed_at := some 3 }

/-- State with one council and one active motion. -/
def exampleOneActive : DBState :=
  { councils := [councilA], weights := [], motions := [motionOne], votes := [] }

/-- State with one council and two active motions. -/
def exampleTwoActive : DBState :=
  { councils := [councilA], weights := [], motions := [motionOne, motionTwo],
    votes := [] }

/-- State with one council whose only motion is already passed. -/
def exampleClosed : DBState :=
  { councils := [councilA], weights := [], motions := [motionClosed], votes := [] }

/-! ### Grammar characterizations of the two matchers -/

lemma takeWhile_append_of_all {p : Char → Bool} {a : List Char} {x : Char} {b : List Char}
    (ha : a.all p = true) (hx : p x = false) :
    (a ++ x :: b).takeWhile p = a := by
  induction a with
  | nil => simp [List.takeWhile_cons, hx]
  | cons c cs ih =>
      simp only [List.all_cons, Bool.and_eq_true] at ha
      simp [List.takeWhile_cons, ha.1, ih ha.2]

lemma dropWhile_append_of_all {p : Char → Bool} {a : List Char} {x : Char} {b : List Char}
    (ha : a.all p = true) (hx : p x = false) :
    (a ++ x :: b).dropWhile p = x :: b := by
  induction a with
  | nil => simp [List.dropWhile_cons, hx]
  | cons c cs ih =>
      simp only [List.all_cons, Bool.and_eq_true] at ha
      simp [List.dropWhile_cons, ha.1, ih ha.2]

lemma all_takeWhile_self (p : Char → Bool) (cs : List Char) :
    (cs.takeWhile p).all p = true :=
  List.all_eq_true.mpr fun _ hx => List.mem_takeWhile_imp hx

/-- A string matches `fracMatch` exactly when it is literally
`digits ++ "/" ++ digits` with both groups non-empty: the language of the
anchored regex `^\d+/\d+$`. -/
lemma fracMatch_eq_some_iff {cs a b : List Char} :
    fracMatch cs = some (a, b) ↔
      cs = a ++ '/' :: b ∧ a ≠ [] ∧ b ≠ [] ∧
        a.all isAsciiDigit = true ∧ b.all isAsciiDigit = true := by
  constructor
  · intro h
    rw [fracMatch] at h
    split at h
    · rename_i c ds2 hrest
      split at h
      · rename_i hcond
        obtain ⟨hc, hne1, hne2, hall2⟩ := hcond
        rw [Option.some.injEq, Prod.mk.injEq] at h
        obtain ⟨ha, hb⟩ := h
        subst ha hb hc
        refine ⟨?_, hne1, hne2, all_takeWhile_self _ _, hall2⟩
        conv_lhs => rw [← List.takeWhile_append_dropWhile (p := isAsciiDigit) (l := cs)]
        rw [hrest]
      · exact absurd h (by simp)
    · exact absurd h (by simp)
  · rintro ⟨rfl, hne1, hne2, hall1, hall2⟩
    have hx : isAsciiDigit '/' = false := by rfl
    rw [fracMatch]
    rw [dropWhile_append_of_all hall1 hx]
    simp only [takeWhile_append_of_all hall1 hx]
    simp [hne1, hne2, hall2, List.all_eq_true]

/-- A string matches `percMatch` exactly when it is literally
`digits ++ "%"` or `digits ++ "." ++ digits ++ "%"` with all digit groups
non-empty: the language of the anchored regex `^\d+(\.\d+)?%$`. -/
lemma percMatch_eq_some_iff {cs ip fp : List Char} :
    percMatch cs = some (ip, fp) ↔
      ip ≠ [] ∧ ip.all isAsciiDigit = true ∧
        ((fp = [] ∧ cs = ip ++ ['%']) ∨
         (fp ≠ [] ∧ fp.all isAsciiDigit = true ∧ cs = ip ++ '.' :: (fp ++ ['%']))) := by
  have hpc : isAsciiDigit '%' = false := by rfl
  have hdot : isAsciiDigit '.' = false := by rfl
  constructor
  · intro h
    rw [percMatch] at h
    split at h
    · exact absurd h (by simp)
    · rename_i hne
      split at h
      · rename_i hrest
        rw [Option.some.injEq, Prod.mk.injEq] at h
        obtain ⟨ha, hb⟩ := h
        subst ha
        refine ⟨hne, all_takeWhile_self _ _, Or.inl ⟨hb.symm, ?_⟩⟩
        conv_lhs => rw [← List.takeWhile_append_dropWhile (p := isAsciiDigit) (l := cs)]
        rw [hrest]
      · rename_i hnp
        split at h
        · rename_i c rest2 hrest
          split at h
          · rename_i hcond
            obtain ⟨hc, hr2, hne2⟩ := hcond
            subst hc
            rw [Option.some.injEq, Prod.mk.injEq] at h
            obtain ⟨ha, hb⟩ := h
            subst ha
            refine ⟨hne, all_takeWhile_self _ _,
              Or.inr ⟨hb ▸ hne2, hb ▸ all_takeWhile_self _ _, ?_⟩⟩
            conv_lhs => rw [← List.takeWhile_append_dropWhile (p := isAsciiDigit) (l := cs)]
            rw [hrest]
            subst hb
            congr 2
            conv_lhs => rw [← List.takeWhile_append_dropWhile (p := isAsciiDigit) (l := rest2)]
            rw [hr2]
          · exact absurd h (by simp)
        · exact absurd h (by simp)
  · rintro ⟨hne1, hall1, hcase | hcase⟩
    · obtain ⟨rfl, rfl⟩ := hcase
      rw [percMatch]
      rw [takeWhile_append_of_all hall1 hpc, dropWhile_append_of_all hall1 hpc]
      simp [hne1]
    · obtain ⟨hne2, hall2, rfl⟩ := hcase
      rw [percMatch]
      rw [takeWhile_append_of_all hall1 hdot, dropWhile_append_of_all hall1 hdot]
      have h2 : (fp ++ ['%']).takeWhile isAsciiDigit = fp := by
        have := takeWhile_append_of_all (a := fp) (x := '%') (b := []) hall2 hpc
        simpa using this
      have h3 : (fp ++ ['%']).dropWhile isAsciiDigit = ['%'] := by
        have := dropWhile_append_of_all (a := fp) (x := '%') (b := []) hall2 hpc
        simpa using this
      simp [hne1, hne2, h2, h3]

/-! ## Lemmas about the vote upsert -/

lemma voteKeyMatches_iff {m : ℕ} {u : ℤ} {v : VoteRow} :
    voteKeyMatches m u v = true ↔ VoteKey v = (m, u) := by
  simp [voteKeyMatches, VoteKey, Prod.ext_iff]

lemma filter_key_of_not_mem {l : List VoteRow} {m : ℕ} {u : ℤ}
    (h : ∀ v ∈ l, voteKeyMatches m u v = false) :
    l.filter (voteKeyMatches m u) = [] := by
  induction l with
  | nil => rfl
  | cons v vs ih =>
      rw [List.filter_cons]
      simp only [h v (List.mem_cons_self v vs)]
      exact ih fun w hw => h w (List.mem_cons_of_mem v hw)

/-- On a well-formed table, the upsert leaves exactly one row with the
upserted key, carrying the new choice, reason and weight. -/
lemma upsertVote_filter_key {l : List VoteRow} (m : ℕ) (u : ℤ) (c : Choice)
    (r : Option String) (w : ℚ) (hwf : VotesWF l) :
    (upsertVote l m u c r w).filter (voteKeyMatches m u) =
      [{ motion_id := m, user_id := u, vote := c, reason := r, weight := w }] := by
  rw [upsertVote]
  split
  · rename_i hany
    rw [List.any_eq_true] at hany
    obtain ⟨v0, hv0mem, hv0⟩ := hany
    induction l with
    | nil => simp at hv0mem
    | cons v vs ih =>
        rw [VotesWF, List.map_cons, List.nodup_cons] at hwf
        obtain ⟨hnotin, hwfvs⟩ := hwf
        by_cases hv : voteKeyMatches m u v = true
        · have hkey : VoteKey v = (m, u) := voteKeyMatches_iff.mp hv
          have hnew : voteKeyMatches m u
              ({ v with vote := c, reason := r, weight := w } : VoteRow) = true := by
            simp [voteKeyMatches] at hv ⊢
            exact hv
          rw [List.map_cons, List.filter_cons]
          simp only [hv, if_true, hnew]
          have hrest : ∀ x ∈ vs.map (fun v =>
              if voteKeyMatches m u v then
                { v with vote := c, reason := r, weight := w } else v),
              voteKeyMatches m u x = false := by
            intro x hx
            rw [List.mem_map] at hx
            obtain ⟨y, hy, rfl⟩ := hx
            have hyk : voteKeyMatches m u y = false := by
              by_contra hcon
              rw [Bool.not_eq_false] at hcon
              apply hnotin
              rw [hkey, ← voteKeyMatches_iff.mp hcon]
              exact List.mem_map_of_mem VoteKey hy
            simp only [hyk, if_false]
            exact hyk
          rw [filter_key_of_not_mem hrest]
          have : ({ v with vote := c, reason := r, weight := w } : VoteRow) =
              { motion_id := m, user_id := u, vote := c, reason := r, weight := w } := by
            have h12 : v.motion_id = m ∧ v.user_id = u := by
              simpa [VoteKey, Prod.ext_iff] using hkey
            cases v
            simp_all
          rw [this]
        · rcases List.mem_cons.mp hv0mem with rfl | hv0vs
          · exact absurd hv0 hv
          · rw [List.map_cons, List.filter_cons]
            rw [Bool.not_eq_true] at hv
            simp only [hv, Bool.false_eq_true, if_false]
            exact ih hwfvs hv0vs
  · rename_i hany
    rw [List.filter_append, filter_key_of_not_mem, List.nil_append]
    · rw [List.filter_cons]
      simp [voteKeyMatches]
    · intro v hv
      by_contra hcon
      rw [Bool.not_eq_false] at hcon
      exact hany (List.any_eq_true.mpr ⟨v, hv, hcon⟩)

/-- The upsert preserves well-formedness of the `votes` table. -/
lemma upsertVote_VotesWF {l : List VoteRow} (m : ℕ) (u : ℤ) (c : Choice)
    (r : Option String) (w : ℚ) (hwf : VotesWF l) :
    VotesWF (upsertVote l m u c r w) := by
  rw [upsertVote]
  split
  · rw [VotesWF, List.map_map]
    have : ∀ v ∈ l, (VoteKey ∘ fun v =>
        if voteKeyMatches m u v then
          { v with vote := c, reason := r, weight := w } else v) v = VoteKey v := by
      intro v _
      by_cases hv : voteKeyMatches m u v = true
      · simp [hv, VoteKey]
      · rw [Bool.not_eq_true] at hv
        simp [hv, VoteKey]
    rw [List.map_congr_left this]
    exact hwf
  · rename_i hany
    rw [VotesWF, List.map_append]
    have hsingle : ([(⟨m, u, c, r, w⟩ : VoteRow)]).map VoteKey = [(m, u)] := rfl
    rw [hsingle, List.nodup_middle]
    rw [List.nodup_cons]
    constructor
    · intro hmem
      rw [List.append_nil, List.mem_map] at hmem
      obtain ⟨v, hv, hkey⟩ := hmem
      apply hany
      exact List.any_eq_true.mpr ⟨v, hv, voteKeyMatches_iff.mpr hkey⟩
    · rw [List.append_nil]
      exact hwf

lemma filter_other_map_update (l : List VoteRow) (m : ℕ) (u : ℤ) (c : Choice)
    (r : Option String) (w : ℚ) (m' : ℕ) (hne : m' ≠ m) :
    (l.map (fun v =>
      if voteKeyMatches m u v then
        { v with vote := c, reason := r, weight := w } else v)).filter
      (fun v => decide (v.motion_id = m')) =
    l.filter (fun v => decide (v.motion_id = m')) := by
  induction l with
  | nil => rfl
  | cons v vs ih =>
      rw [List.map_cons, List.filter_cons, List.filter_cons]
      by_cases hv : voteKeyMatches m u v = true
      · have hvm : v.motion_id = m := by
          have h12 := voteKeyMatches_iff.mp hv
          rw [VoteKey, Prod.ext_iff] at h12
          exact h12.1
        simp only [hv, if_true]
        have hdrop : decide (v.motion_id = m') = false := by
          simp [hvm, Ne.symm hne]
        have hdrop2 : decide (({ v with vote := c, reason := r, weight := w } :
            VoteRow).motion_id = m') = false := hdrop
        simp only [hdrop, hdrop2, Bool.false_eq_true, if_false]
        exact ih
      · rw [Bool.not_eq_true] at hv
        simp only [hv, Bool.false_eq_true, if_false]
        cases hd : decide (v.motion_id = m') <;> simp [ih]

/-- The upsert touches only rows of its own motion: votes of every other
motion are unchanged. -/
lemma upsertVote_filter_other_motion (l : List VoteRow) (m : ℕ) (u : ℤ) (c : Choice)
    (r : Option String) (w : ℚ) (m' : ℕ) (hne : m' ≠ m) :
    (upsertVote l m u c r w).filter (fun v => decide (v.motion_id = m')) =
      l.filter (fun v => decide (v.motion_id = m')) := by
  rw [upsertVote]
  split
  · exact filter_other_map_update l m u c r w m' hne
  · rw [List.filter_append]
    have : ([(⟨m, u, c, r, w⟩ : VoteRow)]).filter
        (fun v => decide (v.motion_id = m')) = [] := by
      simp [Ne.symm hne]
    rw [this, List.append_nil]

/-! ## Lemmas about the active-motion query -/

lemma isActiveFor_iff {council_id : ℕ} {m : MotionRow} :
    isActiveFor council_id m = true ↔
      m.council_id = council_id ∧ m.status = .active := by
  simp [isActiveFor]

/-- Inversion for `get_active_motion`: a returned motion is a stored, active
motion of the queried council. -/
lemma get_active_motion_mem {s : DBState} {council_id : ℕ} {m : MotionRow}
    (h : get_active_motion s council_id = some m) :
    m ∈ s.motions ∧ m.council_id = council_id ∧ m.status = .active := by
  have hmem : m ∈ (s.motions.filter (isActiveFor council_id)).argmax MotionRow.id :=
    Option.mem_def.mpr h
  have hmf := List.argmax_mem hmem
  obtain ⟨hm, hp⟩ := List.mem_filter.mp hmf
  exact ⟨hm, isActiveFor_iff.mp hp⟩

/-! ## Inversion lemmas for the command handlers -/

/-- Successful `/vote` runs decompose into: council and active motion found,
vote upserted with the resolved weight, and the motion closed as passed
exactly when the recomputed totals reach the majority. -/
lemma vote_cmd_ok_inversion {s : DBState} {channel_id user_id : ℤ}
    {role_ids : List ℤ} {choice : Choice} {reason : Option String} {now : ℕ}
    {s' : DBState} {out : VoteOutcome}
    (hok : vote_cmd s channel_id user_id role_ids choice reason now = .ok (s', out)) :
    ∃ council motion,
      get_council_by_channel s channel_id = some council ∧
      get_active_motion s council.id = some motion ∧
      out.motion_id = motion.id ∧
      s'.votes = upsertVote s.votes motion.id user_id choice reason
        (get_weight_for_member s.weights council.id user_id role_ids).toRat ∧
      out.passed = has_majority
          (weightedTotal (s'.votes.filter (fun v => decide (v.motion_id = motion.id))) .yes)
          (weightedTotal (s'.votes.filter (fun v => decide (v.motion_id = motion.id))) .no)
          (weightedTotal (s'.votes.filter (fun v => decide (v.motion_id = motion.id))) .abstain)
          motion.majority_num motion.majority_den motion.unanimous ∧
      s'.motions = (if out.passed then
          s.motions.map (fun mm => if mm.id = motion.id then
            { mm with status := .passed, result := some "passed", closed_at := some now }
          else mm)
        else s.motions) ∧
      s'.councils = s.councils ∧ s'.weights = s.weights := by
  rcases hcoun : get_council_by_channel s channel_id with _ | council
  · simp only [vote_cmd, hcoun] at hok
    exact absurd hok (by simp)
  rcases hact : get_active_motion s council.id with _ | motion
  · simp only [vote_cmd, hcoun, hact] at hok
    exact absurd hok (by simp)
  simp only [vote_cmd, hcoun, hact] at hok
  refine ⟨council, motion, rfl, hact, ?_⟩
  split at hok
  · rename_i hmaj
    rw [Except.ok.injEq, Prod.mk.injEq] at hok
    obtain ⟨hs', hout⟩ := hok
    subst hs' hout
    refine ⟨rfl, rfl, ?_, ?_, rfl, rfl⟩
    · simp only [end_motion, cast_vote, fetch_votes] at hmaj ⊢
      rw [hmaj]
    · simp [end_motion, cast_vote]
  · rename_i hmaj
    rw [Except.ok.injEq, Prod.mk.injEq] at hok
    obtain ⟨hs', hout⟩ := hok
    subst hs' hout
    refine ⟨rfl, rfl, ?_, ?_, rfl, rfl⟩
    · simp only [cast_vote, fetch_votes] at hmaj ⊢
      rw [Bool.not_eq_true] at hmaj
      rw [hmaj]
    · simp [cast_vote]

/-- Successful `/motion kill` runs decompose into: council and active motion
found, caller authorized, and the motion ended as killed. -/
lemma motion_kill_ok_inversion {s : DBState} {channel_id user_id : ℤ}
    {is_admin : Bool} {now : ℕ} {s'' : DBState}
    (hok : motion_kill s channel_id user_id is_admin now = .ok s'') :
    ∃ council motion,
      get_council_by_channel s channel_id = some council ∧
      get_active_motion s council.id = some motion ∧
      (user_id = motion.author_id ∨ is_admin = true) ∧
      s'' = end_motion s motion.id .killed (some "killed") none now := by
  rcases hcoun : get_council_by_channel s channel_id with _ | council
  · simp only [motion_kill, hcoun] at hok
    exact absurd hok (by simp)
  rcases hact : get_active_motion s council.id with _ | motion
  · simp only [motion_kill, hcoun, hact] at hok
    exact absurd hok (by simp)
  simp only [motion_kill, hcoun, hact] at hok
  split at hok
  · rename_i hauth
    rw [Except.ok.injEq] at hok
    exact ⟨council, motion, rfl, hact, hauth, hok.symm⟩
  · exact absurd hok (by simp)

/-- When the channel is a council but no active motion exists, `/motion kill`
fails with the no-active-motion error. -/
lemma motion_kill_no_active {s : DBState} {channel_id : ℤ} {council : CouncilRow}
    (hcoun : get_council_by_channel s channel_id = some council)
    (hact : get_active_motion s council.id = none)
    (user_id : ℤ) (is_admin : Bool) (now : ℕ) :
    motion_kill s channel_id user_id is_admin now = .error .noActiveMotion := by
  simp only [motion_kill, hcoun, hact]

/-- When the channel is a council but no active motion exists, `/vote` fails
with the no-active-motion error. -/
lemma vote_cmd_no_active {s : DBState} {channel_id : ℤ} {council : CouncilRow}
    (hcoun : get_council_by_channel s channel_id = some council)
    (hact : get_active_motion s council.id = none)
    (user_id : ℤ) (role_ids : List ℤ) (choice : Choice) (reason : Option String)
    (now : ℕ) :
    vote_cmd s channel_id user_id role_ids choice reason now =
      .error .noActiveMotion := by
  simp only [vote_cmd, hcoun, hact]

/-- With the channel a council and no majority argument, `/motion new`
reduces to `create_motion` with the default simple majority. -/
lemma motion_new_ok_default {s : DBState} {channel_id : ℤ} {council : CouncilRow}
    (hcoun : get_council_by_channel s channel_id = some council)
    (author_id : ℤ) (text : String) (unanimous : Bool) (now : ℕ) :
    motion_new s channel_id author_id text none unanimous now =
      .ok (create_motion s council.id author_id text 1 2 unanimous none now) := by
  simp only [motion_new, hcoun]

/-- With the channel a council and a majority argument that parses,
`/motion new` reduces to `create_motion` with the parsed threshold. -/
lemma motion_new_ok_parsed {s : DBState} {channel_id : ℤ} {council : CouncilRow}
    {spec : String} {num den : ℕ}
    (hcoun : get_council_by_channel s channel_id = some council)
    (hp : parse_majority spec = .ok (num, den))
    (author_id : ℤ) (text : String) (unanimous : Bool) (now : ℕ) :
    motion_new s channel_id author_id text (some spec) unanimous now =
      .ok (create_motion s council.id author_id text (num : ℤ) (den : ℤ)
        unanimous none now) := by
  simp only [motion_new, hcoun, hp]

/-! ## Theorems about the tally evaluator -/

/-- C3: with `unanimous = false`, non-negative totals and positive integer
threshold, `evaluate` is `PENDING` on an empty tally, otherwise `PASSED`
exactly when `yes * den ≥ (yes + no + abstain) * num`, `PENDING` in every
other case and never `FAILED`; in particular `yes = 1, no = 0, abstain = 1`
with majority `1/2` is `PASSED` at the `≥` boundary, the abstention counting
toward the total. -/
theorem evaluate_simple_majority_spec (y n a : ℚ) (num den : ℤ)
    (hy : 0 ≤ y) (hn : 0 ≤ n) (ha : 0 ≤ a) (hnum : 0 < num) (hden : 0 < den) :
    (y + n + a = 0 → evaluate y n a num den false = .PENDING) ∧
    (y + n + a ≠ 0 →
      (evaluate y n a num den false = .PASSED ↔
        y * (den : ℚ) ≥ (y + n + a) * (num : ℚ))) ∧
    (y + n + a ≠ 0 → ¬(y * (den : ℚ) ≥ (y + n + a) * (num : ℚ)) →
      evaluate y n a num den false = .PENDING) ∧
    evaluate y n a num den false ≠ .FAILED ∧
    evaluate 1 0 1 1 2 false = .PASSED := by
  have hfail : evaluate y n a num den false ≠ .FAILED := by
    unfold evaluate
    split <;> simp
  have hkey : y + n + a ≠ 0 →
      (evaluate y n a num den false = .PASSED ↔
        y * (den : ℚ) ≥ (y + n + a) * (num : ℚ)) := by
    intro hne
    have hpos : 0 < y + n + a := lt_of_le_of_ne (by positivity) (Ne.symm hne)
    simp [evaluate, has_majority, not_le.mpr hpos, ge_iff_le]
  refine ⟨?_, hkey, ?_, hfail, ?_⟩
  · intro h0
    simp [evaluate, has_majority, h0]
  · intro hne hlt
    rcases h : evaluate y n a num den false with _ | _ | _
    · rfl
    · exact absurd ((hkey hne).mp h) hlt
    · exact absurd h hfail
  · norm_num [evaluate, has_majority]

/-- C3 witness: the theorem applied at `yes = 1, no = 0, abstain = 1`,
majority `1/2` (the abstain-dilution boundary) and, through the iff, at
`yes = 2, no = 1, abstain = 0`. -/
theorem evaluate_simple_majority_spec_witness :
    (0 : ℚ) ≤ 2 ∧ (0 : ℚ) ≤ 1 ∧ (0 : ℚ) ≤ 0 ∧ (0 : ℤ) < 1 ∧ (0 : ℤ) < 2 ∧
      evaluate 1 0 1 1 2 false = .PASSED ∧ evaluate 2 1 0 1 2 false = .PASSED := by
  have h := evaluate_simple_majority_spec 2 1 0 1 2 (by norm_num) (by norm_num)
    (by norm_num) (by norm_num) (by norm_num)
  exact ⟨by norm_num, by norm_num, by norm_num, by norm_num, by norm_num,
    h.2.2.2.2, (h.2.1 (by norm_num)).mpr (by norm_num)⟩

/-- C4: with `unanimous = true` and a positive total, `evaluate` is `PASSED`
exactly when `no = 0`, `abstain = 0` and `yes > 0`, and `PENDING` in every
other case — never `FAILED` from the unanimity check alone; in particular
`evaluate 3 0 0 _ _ true = PASSED` and `evaluate 2 1 0 _ _ true = PENDING`
for any threshold. -/
theorem evaluate_unanimous_spec (y n a : ℚ) (num den : ℤ)
    (hpos : 0 < y + n + a) :
    (evaluate y n a num den true = .PASSED ↔ n = 0 ∧ a = 0 ∧ 0 < y) ∧
    (¬(n = 0 ∧ a = 0 ∧ 0 < y) → evaluate y n a num den true = .PENDING) ∧
    evaluate y n a num den true ≠ .FAILED ∧
    evaluate 3 0 0 num den true = .PASSED ∧
    evaluate 2 1 0 num den true = .PENDING := by
  have hkey : evaluate y n a num den true = .PASSED ↔ n = 0 ∧ a = 0 ∧ 0 < y := by
    simp [evaluate, has_majority, not_le.mpr hpos, and_assoc]
  refine ⟨hkey, ?_, ?_, ?_, ?_⟩
  · intro hnot
    unfold evaluate
    split
    · exact absurd (hkey.mp (by simp [evaluate, *])) hnot
    · rfl
  · unfold evaluate
    split <;> simp
  · norm_num [evaluate, has_majority]
  · norm_num [evaluate, has_majority]

/-- C4 witness: the theorem applied at `yes = 3, no = 0, abstain = 0` and
threshold `2/3`, giving both unanimity examples. -/
theorem evaluate_unanimous_spec_witness :
    (0 : ℚ) < 3 + 0 + 0 ∧
      evaluate 3 0 0 2 3 true = .PASSED ∧ evaluate 2 1 0 2 3 true = .PENDING := by
  have h := evaluate_unanimous_spec 3 0 0 2 3 (by norm_num)
  exact ⟨by norm_num, h.2.2.2.1, h.2.2.2.2⟩

/-- C9: with `unanimous = false`, non-negative totals and a positive integer
threshold, `evaluate` is monotonic in the yes total — adding `k ≥ 0` to a
`PASSED` tally never turns it back to `PENDING`. -/
theorem evaluate_monotone_in_yes (y n a k : ℚ) (num den : ℤ)
    (hy : 0 ≤ y) (hn : 0 ≤ n) (ha : 0 ≤ a) (hk : 0 ≤ k)
    (hnum : 0 < num) (hden : 0 < den)
    (hp : evaluate y n a num den false = .PASSED) :
    evaluate (y + k) n a num den false = .PASSED := by
  have hnumQ : (0 : ℚ) < (num : ℚ) := by exact_mod_cast hnum
  have hdenQ : (0 : ℚ) < (den : ℚ) := by exact_mod_cast hden
  rw [evaluate] at hp
  by_cases htot : y + n + a ≤ 0
  · simp [has_majority, htot] at hp
  · push_neg at htot
    have hineq : (y + n + a) * (num : ℚ) ≤ y * (den : ℚ) := by
      by_contra hcon
      simp [has_majority, not_le.mpr htot, ge_iff_le, hcon] at hp
    have htot' : ¬ (y + k) + n + a ≤ 0 := by nlinarith
    have hineq' : ((y + k) + n + a) * (num : ℚ) ≤ (y + k) * (den : ℚ) := by
      rcases le_or_lt (num : ℚ) (den : ℚ) with hle | hgt
      · nlinarith
      · have hyz : y ≤ 0 := by nlinarith
        have hy0 : y = 0 := le_antisymm hyz hy
        nlinarith
    simp [evaluate, has_majority, htot', ge_iff_le, hineq']

/-! ## Last-write-wins vote upsert (claim C8) -/

/-- C8: after any non-empty sequence of `cast_vote` calls by one voter on one
motion (against a well-formed vote table), exactly one vote row with that
`(motion_id, voter_id)` key is stored, and its choice, reason and weight are
those of the most recent cast — the later cast replaces the prior one with no
history retained; the table stays well-formed. -/
theorem cast_vote_last_write_wins (s : DBState) (motion_id : ℕ) (user_id : ℤ)
    (reqs : List CastReq) (last : CastReq) (hwf : VotesWF s.votes) :
    (castSeq s motion_id user_id (reqs ++ [last])).votes.filter
        (voteKeyMatches motion_id user_id) =
      [{ motion_id := motion_id, user_id := user_id, vote := last.vote,
         reason := last.reason, weight := last.weight }] ∧
    VotesWF (castSeq s motion_id user_id (reqs ++ [last])).votes := by
  induction reqs generalizing s with
  | nil =>
      simp only [List.nil_append, castSeq]
      exact ⟨upsertVote_filter_key motion_id user_id last.vote last.reason last.weight hwf,
        upsertVote_VotesWF motion_id user_id last.vote last.reason last.weight hwf⟩
  | cons c cs ih =>
      simp only [List.cons_append, castSeq]
      exact ih _ (upsertVote_VotesWF motion_id user_id c.vote c.reason c.weight hwf)

/-- C8 witness: voter 7 casts yes (weight 1) then no (weight 2) on motion 1
starting from an empty vote table; exactly one row remains, carrying the
second choice, reason and weight. -/
theorem cast_vote_last_write_wins_witness :
    VotesWF ([] : List VoteRow) ∧
    (castSeq { councils := [], weights := [], motions := [], votes := [] } 1 7
        ([⟨.yes, none, 1⟩] ++ [⟨.no, some "changed", 2⟩])).votes.filter
        (voteKeyMatches 1 7) =
      [{ motion_id := 1, user_id := 7, vote := .no, reason := some "changed",
         weight := 2 }] := by
  have h := cast_vote_last_write_wins
    { councils := [], weights := [], motions := [], votes := [] } 1 7
    [⟨.yes, none, 1⟩] ⟨.no, some "changed", 2⟩ (by simp [VotesWF])
  exact ⟨by simp [VotesWF], h.1⟩

/-- C9 witness: the monotonicity theorem applied at the passing tally
`yes = 2, no = 1, abstain = 0` with majority `1/2`, adding `k = 5`. -/
theorem evaluate_monotone_in_yes_witness :
    (0 : ℚ) ≤ 2 ∧ (0 : ℚ) ≤ 1 ∧ (0 : ℚ) ≤ 0 ∧ (0 : ℚ) ≤ 5 ∧
      (0 : ℤ) < 1 ∧ (0 : ℤ) < 2 ∧ evaluate 2 1 0 1 2 false = .PASSED ∧
      evaluate (2 + 5) 1 0 1 2 false = .PASSED := by
  refine ⟨by norm_num, by norm_num, by norm_num, by norm_num, by norm_num,
    by norm_num, by norm_num [evaluate, has_majority], ?_⟩
  exact evaluate_monotone_in_yes 2 1 0 5 1 2 (by norm_num) (by norm_num)
    (by norm_num) (by norm_num) (by norm_num) (by norm_num)
    (by norm_num [evaluate, has_majority])


/-- C10: `get_active_motion` returns `none` exactly when the council has no
active motion; whenever active motions exist (ids being unique), it returns
the single active motion with the greatest id — the most recently created
one — rather than an error or an arbitrary one. -/
theorem get_active_motion_spec (s : DBState) (council_id : ℕ)
    (hids : (s.motions.map MotionRow.id).Nodup) :
    (get_active_motion s council_id = none ↔
      ∀ m ∈ s.motions, ¬(m.council_id = council_id ∧ m.status = .active)) ∧
    (∀ m ∈ s.motions, m.council_id = council_id → m.status = .active →
      ∃ top, get_active_motion s council_id = some top ∧ top ∈ s.motions ∧
        top.council_id = council_id ∧ top.status = .active ∧
        (∀ mm ∈ s.motions, mm.council_id = council_id → mm.status = .active →
          mm.id ≤ top.id) ∧
        (∀ mm ∈ s.motions, mm.council_id = council_id → mm.status = .active →
          mm ≠ top → mm.id < top.id)) := by
  constructor
  · rw [get_active_motion, List.argmax_eq_none, List.filter_eq_nil_iff]
    constructor
    · intro h m hm
      have := h m hm
      rw [isActiveFor_iff] at this
      exact this
    · intro h m hm
      rw [isActiveFor_iff]
      exact h m hm
  · intro m hm hmc hms
    have hmf : m ∈ s.motions.filter (isActiveFor council_id) :=
      List.mem_filter.mpr ⟨hm, isActiveFor_iff.mpr ⟨hmc, hms⟩⟩
    obtain ⟨top, htop⟩ : ∃ top,
        (s.motions.filter (isActiveFor council_id)).argmax MotionRow.id = some top := by
      rcases harg : (s.motions.filter (isActiveFor council_id)).argmax MotionRow.id with
        _ | top
      · rw [List.argmax_eq_none] at harg
        rw [harg] at hmf
        exact absurd hmf (List.not_mem_nil m)
      · exact ⟨top, rfl⟩
    have htopm : top ∈ (s.motions.filter (isActiveFor council_id)).argmax MotionRow.id :=
      Option.mem_def.mpr htop
    obtain ⟨htopmem, htopc, htops⟩ := get_active_motion_mem htop
    refine ⟨top, htop, htopmem, htopc, htops, ?_, ?_⟩
    · intro mm hmm hmmc hmms
      exact List.le_of_mem_argmax
        (List.mem_filter.mpr ⟨hmm, isActiveFor_iff.mpr ⟨hmmc, hmms⟩⟩) htopm
    · intro mm hmm hmmc hmms hne
      have hle : mm.id ≤ top.id := List.le_of_mem_argmax
        (List.mem_filter.mpr ⟨hmm, isActiveFor_iff.mpr ⟨hmmc, hmms⟩⟩) htopm
      rcases lt_or_eq_of_le hle with hlt | heq
      · exact hlt
      · exact absurd (List.inj_on_of_nodup_map hids hmm htopmem heq) hne

/-- C10 witness: in a state with two active motions (ids 1 and 2) for
council 1, the query returns an active motion of council 1 whose id is at
least both — namely the most recent one. -/
theorem get_active_motion_spec_witness :
    (exampleTwoActive.motions.map MotionRow.id).Nodup ∧
    ∃ top, get_active_motion exampleTwoActive 1 = some top ∧
      top ∈ exampleTwoActive.motions ∧ top.council_id = 1 ∧
      top.status = .active ∧ motionTwo.id ≤ top.id := by
  have hids : (exampleTwoActive.motions.map MotionRow.id).Nodup := by
    simp [exampleTwoActive, motionOne, motionTwo]
  obtain ⟨top, h1, h2, h3, h4, h5, -⟩ :=
    (get_active_motion_spec exampleTwoActive 1 hids).2 motionOne
      (by simp [exampleTwoActive]) rfl rfl
  refine ⟨hids, top, h1, h2, h3, h4, ?_⟩
  exact h5 motionTwo (by simp [exampleTwoActive]) rfl rfl

/-- C1 counterexample: in a reachable state where council 1 (channel 100)
already has the active motion 1, `/motion new` does not fail with a
motion-already-active error: it succeeds, creates motion 2, and the council
then holds two active motions. -/
theorem motion_new_counterexample :
    get_active_motion exampleOneActive 1 = some motionOne ∧
    motionOne.status = .active ∧
    ∃ s', motion_new exampleOneActive 100 8 "second" none false 5 = .ok (s', 2) ∧
      (s'.motions.filter (isActiveFor 1)).length = 2 := by
  refine ⟨rfl, rfl, _, rfl, rfl⟩

/-- C1 (amended): `/motion new` performs no check for an existing active
motion and never fails with a motion-already-active error: whenever the
channel is a council and the majority specification parses (or is absent),
it succeeds and appends a fresh motion in the `active` state — even while an
active motion already exists, so a council can hold several active motions
at once.  A proposal after the previous motion became terminal succeeds for
the same reason. -/
theorem motion_new_amended (s : DBState) (channel_id author_id : ℤ)
    (text : String) (majority : Option String) (unanimous : Bool) (now : ℕ)
    (council : CouncilRow)
    (hcoun : get_council_by_channel s channel_id = some council)
    (hm : majority = none ∨ ∃ spec num den, majority = some spec ∧
        parse_majority spec = .ok (num, den)) :
    ∃ s' mid,
      motion_new s channel_id author_id text majority unanimous now = .ok (s', mid) ∧
      ∃ newM, s'.motions = s.motions ++ [newM] ∧ newM.id = mid ∧
        newM.status = .active ∧ newM.council_id = council.id ∧
        s'.votes = s.votes ∧ s'.councils = s.councils := by
  rcases hm with rfl | ⟨spec, num, den, rfl, hp⟩
  · exact ⟨_, _, motion_new_ok_default hcoun author_id text unanimous now,
      _, rfl, rfl, rfl, rfl, rfl, rfl⟩
  · exact ⟨_, _, motion_new_ok_parsed hcoun hp author_id text unanimous now,
      _, rfl, rfl, rfl, rfl, rfl, rfl⟩

/-- C1 witness: the amended theorem applied in the state that already has an
active motion, with the default majority. -/
theorem motion_new_amended_witness :
    get_council_by_channel exampleOneActive 100 = some councilA ∧
    ∃ s' mid,
      motion_new exampleOneActive 100 8 "second" none false 5 = .ok (s', mid) ∧
      ∃ newM, s'.motions = exampleOneActive.motions ++ [newM] ∧
        newM.status = .active := by
  obtain ⟨s', mid, h1, newM, h2, h3, h4, h5, h6, h7⟩ :=
    motion_new_amended exampleOneActive 100 8 "second" none false 5 councilA
      rfl (Or.inl rfl)
  exact ⟨rfl, s', mid, h1, newM, h2, h4⟩

/-- Adding anything to a Python float yields a float. -/
lemma PyNum.isFloat_add_left {a b : PyNum} (h : a.isFloat = true) :
    (a.add b).isFloat = true := by
  cases a <;> cases b <;> simp_all [PyNum.add, PyNum.isFloat]

/-- C5 counterexample: the claim that no floating-point value is involved
fails already at the default weight — with no weight assignments,
`get_weight_for_member` returns the Python float `1.0`, which `votes.py`
feeds into the totals of `has_majority`. -/
theorem get_weight_for_member_float_counterexample :
    (get_weight_for_member [] 1 7 []).isFloat = true ∧
    (get_weight_for_member [] 1 7 []).toRat = 1 := by
  constructor
  · norm_num [get_weight_for_member, PyNum.toRat, PyNum.isFloat]
  · norm_num [get_weight_for_member, PyNum.toRat]

/-- C5 (amended): the majority comparison itself multiplies the totals by
the exact integer numerator and denominator with no division, but the
weighted totals are not integer-valued at the type level: every effective
weight produced by `get_weight_for_member` is a Python float — the
accumulator starts at `0.0` and the default is `1.0` — so the totals
summed in `votes.py` and fed into `has_majority` are floating-point
values (integer-valued, hence exact, at these magnitudes). -/
theorem get_weight_for_member_always_float (weights : List WeightRow)
    (council_id : ℕ) (user_id : ℤ) (role_ids : List ℤ) :
    (get_weight_for_member weights council_id user_id role_ids).isFloat = true := by
  rw [get_weight_for_member]
  have hfold : ∀ (rows : List WeightRow) (acc : PyNum), acc.isFloat = true →
      (rows.foldl (fun acc w =>
        if w.target_type = .user ∧ w.target_id = user_id then
          acc.add (.intVal w.weight)
        else if w.target_type = .role ∧ w.target_id ∈ role_ids then
          acc.add (.intVal w.weight)
        else acc) acc).isFloat = true := by
    intro rows
    induction rows with
    | nil => exact fun acc h => h
    | cons w ws ih =>
        intro acc h
        rw [List.foldl_cons]
        apply ih
        split
        · exact PyNum.isFloat_add_left h
        · split
          · exact PyNum.isFloat_add_left h
          · exact h
  split
  · exact hfold _ _ rfl
  · rfl

/-- C7 counterexample: the string " 2/3 " matches neither anchored grammar
(its first character is a space), yet `parse_majority` succeeds on it,
because the source strips whitespace before matching. -/
theorem parse_majority_strip_counterexample :
    parse_majority " 2/3 " = .ok (2, 3) ∧
    (¬ ∃ a b, (" 2/3 ".data = a ++ '/' :: b ∧ a ≠ [] ∧ b ≠ [] ∧
        a.all isAsciiDigit = true ∧ b.all isAsciiDigit = true)) ∧
    (¬ ∃ ip fp, (ip ≠ [] ∧ ip.all isAsciiDigit = true ∧
        ((fp = [] ∧ " 2/3 ".data = ip ++ ['%']) ∨
         (fp ≠ [] ∧ fp.all isAsciiDigit = true ∧
           " 2/3 ".data = ip ++ '.' :: (fp ++ ['%']))))) := by
  refine ⟨rfl, ?_, ?_⟩
  · rintro ⟨a, b, hab⟩
    have h : fracMatch (" 2/3 ".data) = some (a, b) := fracMatch_eq_some_iff.mpr hab
    rw [show fracMatch (" 2/3 ".data) = none from rfl] at h
    exact Option.noConfusion h
  · rintro ⟨ip, fp, hip⟩
    have h : percMatch (" 2/3 ".data) = some (ip, fp) := percMatch_eq_some_iff.mpr hip
    rw [show percMatch (" 2/3 ".data) = none from rfl] at h
    exact Option.noConfusion h

/-- C7 (amended): after first stripping leading and trailing whitespace,
`parse_majority` accepts exactly two formats: a whole-string fraction
`digits/digits` returns the parsed pair, failing when the denominator is 0;
a whole-string percentage `digits%` or `digits.digits%` returns the numeric
part rounded to the nearest integer (ties to even, as Python `round`) over
100; and every input whose stripped form matches neither grammar fails with
the invalid-specification error. -/
theorem parse_majority_amended (spec : String) :
    (∀ a b, pyStrip spec.data = a ++ '/' :: b → a ≠ [] → b ≠ [] →
        a.all isAsciiDigit = true → b.all isAsciiDigit = true →
        parse_majority spec =
          (if digitsToNat b = 0
           then .error (.invalidSpecification "Denominator cannot be zero")
           else .ok (digitsToNat a, digitsToNat b))) ∧
    (∀ ip fp, ip ≠ [] → ip.all isAsciiDigit = true → fp.all isAsciiDigit = true →
        ((fp = [] ∧ pyStrip spec.data = ip ++ ['%']) ∨
         (fp ≠ [] ∧ pyStrip spec.data = ip ++ '.' :: (fp ++ ['%']))) →
        parse_majority spec = .ok ((pythonRound (percValue ip fp)).toNat, 100)) ∧
    ((¬ ∃ a b, pyStrip spec.data = a ++ '/' :: b ∧ a ≠ [] ∧ b ≠ [] ∧
        a.all isAsciiDigit = true ∧ b.all isAsciiDigit = true) →
     (¬ ∃ ip fp, ip ≠ [] ∧ ip.all isAsciiDigit = true ∧
        ((fp = [] ∧ pyStrip spec.data = ip ++ ['%']) ∨
         (fp ≠ [] ∧ fp.all isAsciiDigit = true ∧
           pyStrip spec.data = ip ++ '.' :: (fp ++ ['%'])))) →
     parse_majority spec =
       .error (.invalidSpecification "Invalid majority specification")) := by
  refine ⟨?_, ?_, ?_⟩
  · intro a b hdec hne1 hne2 hall1 hall2
    have hf : fracMatch (pyStrip spec.data) = some (a, b) :=
      fracMatch_eq_some_iff.mpr ⟨hdec, hne1, hne2, hall1, hall2⟩
    simp only [parse_majority, hf]
  · intro ip fp hne1 hall1 hall2 hdec
    have hp : percMatch (pyStrip spec.data) = some (ip, fp) := by
      apply percMatch_eq_some_iff.mpr
      rcases hdec with ⟨rfl, hcs⟩ | ⟨hne2, hcs⟩
      · exact ⟨hne1, hall1, Or.inl ⟨rfl, hcs⟩⟩
      · exact ⟨hne1, hall1, Or.inr ⟨hne2, hall2, hcs⟩⟩
    have hslash : ('/' : Char) ∉ pyStrip spec.data := by
      rcases hdec with ⟨rfl, hcs⟩ | ⟨hne2, hcs⟩ <;> rw [hcs] <;>
        intro hmem <;> rw [List.mem_append] at hmem
      · rcases hmem with hmem | hmem
        · have := List.all_eq_true.mp hall1 _ hmem
          exact absurd this (by decide)
        · rw [List.mem_singleton] at hmem
          exact absurd hmem (by decide)
      · rcases hmem with hmem | hmem
        · have := List.all_eq_true.mp hall1 _ hmem
          exact absurd this (by decide)
        · rw [List.mem_cons] at hmem
          rcases hmem with hmem | hmem
          · exact absurd hmem (by decide)
          · rw [List.mem_append] at hmem
            rcases hmem with hmem | hmem
            · have := List.all_eq_true.mp hall2 _ hmem
              exact absurd this (by decide)
            · rw [List.mem_singleton] at hmem
              exact absurd hmem (by decide)
    have hf : fracMatch (pyStrip spec.data) = none := by
      rcases hcase : fracMatch (pyStrip spec.data) with _ | ⟨a, b⟩
      · rfl
      · obtain ⟨hdec2, -, -, -, -⟩ := fracMatch_eq_some_iff.mp hcase
        exact absurd (hdec2 ▸ (by simp : ('/' : Char) ∈ a ++ '/' :: b)) hslash
    simp only [parse_majority, hf, hp]
  · intro hnof hnop
    have hf : fracMatch (pyStrip spec.data) = none := by
      rcases hcase : fracMatch (pyStrip spec.data) with _ | ⟨a, b⟩
      · rfl
      · obtain ⟨h1, h2, h3, h4, h5⟩ := fracMatch_eq_some_iff.mp hcase
        exact absurd ⟨a, b, h1, h2, h3, h4, h5⟩ hnof
    have hp : percMatch (pyStrip spec.data) = none := by
      rcases hcase : percMatch (pyStrip spec.data) with _ | ⟨ip, fp⟩
      · rfl
      · obtain ⟨h1, h2, h3⟩ := percMatch_eq_some_iff.mp hcase
        apply absurd _ hnop
        refine ⟨ip, fp, h1, h2, ?_⟩
        rcases h3 with ⟨hfp, hcs⟩ | ⟨hfp, hall, hcs⟩
        · exact Or.inl ⟨hfp, hcs⟩
        · exact Or.inr ⟨hfp, hall, hcs⟩
    simp only [parse_majority, hf, hp]

/-- C7 witness: the amended theorem applied to "2/3" through its fraction
branch. -/
theorem parse_majority_amended_witness :
    pyStrip ("2/3".data) = ['2'] ++ '/' :: ['3'] ∧
    parse_majority "2/3" = .ok (2, 3) := by
  have h := (parse_majority_amended "2/3").1 ['2'] ['3'] rfl
    (by simp) (by simp) rfl rfl
  refine ⟨rfl, ?_⟩
  rw [h]
  rfl

/-- C2: every accepted `/vote` targets the council's active motion, upserts
the vote with the resolved weight, recomputes the weighted totals over all
stored votes of the motion, and — in the same logical operation — transitions
the motion to `passed` exactly when `has_majority` reports the threshold
reached (so the motion is closed at the earliest vote whose totals satisfy
the threshold); motions already terminal are never touched: their row and
their votes are unchanged by any accepted vote, and no vote is ever recorded
on them. -/
theorem vote_cmd_spec (s : DBState) (channel_id user_id : ℤ) (role_ids : List ℤ)
    (choice : Choice) (reason : Option String) (now : ℕ)
    (s' : DBState) (out : VoteOutcome)
    (hids : (s.motions.map MotionRow.id).Nodup)
    (hok : vote_cmd s channel_id user_id role_ids choice reason now = .ok (s', out)) :
    ∃ council motion,
      get_council_by_channel s channel_id = some council ∧
      get_active_motion s council.id = some motion ∧
      motion ∈ s.motions ∧ motion.status = .active ∧ out.motion_id = motion.id ∧
      s'.votes = upsertVote s.votes motion.id user_id choice reason
        (get_weight_for_member s.weights council.id user_id role_ids).toRat ∧
      out.passed = has_majority
          (weightedTotal (s'.votes.filter (fun v => decide (v.motion_id = motion.id))) .yes)
          (weightedTotal (s'.votes.filter (fun v => decide (v.motion_id = motion.id))) .no)
          (weightedTotal (s'.votes.filter (fun v => decide (v.motion_id = motion.id))) .abstain)
          motion.majority_num motion.majority_den motion.unanimous ∧
      ((∃ mm ∈ s'.motions, mm.id = motion.id ∧ mm.status = .passed) ↔
        out.passed = true) ∧
      (out.passed = false → s'.motions = s.motions) ∧
      (∀ m ∈ s.motions, m.status ≠ .active →
        m ∈ s'.motions ∧
        s'.votes.filter (fun v => decide (v.motion_id = m.id)) =
          s.votes.filter (fun v => decide (v.motion_id = m.id))) := by
  obtain ⟨council, motion, hcoun, hact, hout, hvotes, hpass, hmot, hc2, hw2⟩ :=
    vote_cmd_ok_inversion hok
  obtain ⟨hmem, hmc, hms⟩ := get_active_motion_mem hact
  refine ⟨council, motion, hcoun, hact, hmem, hms, hout, hvotes, hpass, ?_, ?_, ?_⟩
  · constructor
    · rintro ⟨mm, hmm, hmmid, hmmst⟩
      by_contra hfalse
      rw [Bool.not_eq_true] at hfalse
      rw [hfalse] at hmot
      simp only [Bool.false_eq_true, if_false] at hmot
      rw [hmot] at hmm
      have heq : mm = motion := List.inj_on_of_nodup_map hids hmm hmem hmmid
      rw [heq, hms] at hmmst
      exact MotionStatus.noConfusion hmmst
    · intro hp
      rw [hmot, hp, if_pos rfl]
      refine ⟨{ motion with status := MotionStatus.passed, result := some "passed", closed_at := some now }, ?_, rfl, rfl⟩
      have := List.mem_map_of_mem
        (fun (mm : MotionRow) => if mm.id = motion.id then { mm with status := MotionStatus.passed, result := some "passed", closed_at := some now } else mm)
        hmem
      simpa using this
  · intro hp
    rw [hmot, hp]
    simp
  · intro m hm hmst
    have hidne : m.id ≠ motion.id := by
      intro heq
      exact hmst ((List.inj_on_of_nodup_map hids hm hmem heq) ▸ hms)
    refine ⟨?_, ?_⟩
    · rw [hmot]
      split
      · have := List.mem_map_of_mem
          (fun (mm : MotionRow) => if mm.id = motion.id then { mm with status := MotionStatus.passed, result := some "passed", closed_at := some now } else mm)
          hm
        simpa [hidne] using this
      · exact hm
    · rw [hvotes]
      exact upsertVote_filter_other_motion s.votes motion.id user_id choice reason
        _ m.id hidne

/-- C2 witness: in the one-active-motion state with no weight assignments,
voter 7's yes vote (default weight 1.0) reaches the 1/2 majority immediately
and the run records the vote and closes the motion as passed in the same
operation. -/
theorem vote_cmd_spec_witness :
    (exampleOneActive.motions.map MotionRow.id).Nodup ∧
    ∃ s' out,
      vote_cmd exampleOneActive 100 7 [] .yes none 9 = .ok (s', out) ∧
      ∃ council motion,
        get_council_by_channel exampleOneActive 100 = some council ∧
        get_active_motion exampleOneActive council.id = some motion ∧
        motion ∈ exampleOneActive.motions ∧ motion.status = .active ∧
        out.motion_id = motion.id ∧
        ((∃ mm ∈ s'.motions, mm.id = motion.id ∧ mm.status = .passed) ↔
          out.passed = true) := by
  have hids : (exampleOneActive.motions.map MotionRow.id).Nodup := by
    simp [exampleOneActive]
  have h1 : get_council_by_channel exampleOneActive 100 = some councilA := rfl
  have h2 : get_active_motion exampleOneActive councilA.id = some motionOne := rfl
  have h3 : (get_weight_for_member exampleOneActive.weights councilA.id 7 []).toRat = 1 := by
    norm_num [get_weight_for_member, exampleOneActive, PyNum.toRat]
  have hok : vote_cmd exampleOneActive 100 7 [] .yes none 9 =
      .ok ({ councils := [councilA], weights := [], motions := [{ motionOne with status := MotionStatus.passed, result := some "passed", closed_at := some 9 }], votes := [{ motion_id := 1, user_id := 7, vote := Choice.yes, reason := none, weight := 1 }] }, { motion_id := 1, passed := true }) := by
    have hno : (Choice.yes = Choice.no) = False := eq_false (by decide)
    have hab : (Choice.yes = Choice.abstain) = False := eq_false (by decide)
    simp only [vote_cmd, h1, h2, h3]
    norm_num [exampleOneActive, motionOne, councilA, cast_vote, upsertVote,
      voteKeyMatches, fetch_votes, weightedTotal, has_majority, end_motion,
      List.filter_cons, List.filter_nil, hno, hab]
  obtain ⟨c, mo, g1, g2, g3, g4, g5, g6, g7, g8, g9, g10⟩ :=
    vote_cmd_spec exampleOneActive 100 7 [] .yes none 9 _ _ hids hok
  exact ⟨hids, _, _, hok, c, mo, g1, g2, g3, g4, g5, g8⟩

/-- C6 counterexample: motion 1 is already terminal (`passed`, closed at 3),
yet the storage-level close neither fails nor leaves the row unchanged: it
silently overwrites status, result and closed_at (`end_motion` is an
unconditional UPDATE returning no error the caller could distinguish). -/
theorem end_motion_counterexample :
    motionClosed.status = .passed ∧ motionClosed.closed_at = some 3 ∧
    (end_motion exampleClosed 1 .killed (some "killed") none 9).motions =
      [{ motionClosed with status := MotionStatus.killed, result := some "killed", closed_at := some 9 }] := by
  exact ⟨rfl, rfl, rfl⟩

/-- C6 (amended): no castVote is ever accepted on a terminal motion — the
`/vote` and `/motion kill` handlers deterministically fail with a
no-active-motion error when the council has no active motion, and an
accepted run never touches the terminal motion's row or votes — but the
storage-level close does not fail on an already-terminal motion: `end_motion`
silently overwrites its status, result and closed_at. -/
theorem terminal_motion_ops (s : DBState) (m : MotionRow)
    (hids : (s.motions.map MotionRow.id).Nodup)
    (hm : m ∈ s.motions) (hterm : m.status ≠ .active) :
    (∀ st res ca now,
      { m with status := st, result := res, closed_at := some (ca.getD now) } ∈
        (end_motion s m.id st res ca now).motions) ∧
    (∀ channel_id council, get_council_by_channel s channel_id = some council →
      get_active_motion s council.id = none →
      ∀ user_id is_admin now,
        motion_kill s channel_id user_id is_admin now = .error .noActiveMotion) ∧
    (∀ channel_id user_id is_admin now s'',
      motion_kill s channel_id user_id is_admin now = .ok s'' → m ∈ s''.motions) ∧
    (∀ channel_id council, get_council_by_channel s channel_id = some council →
      get_active_motion s council.id = none →
      ∀ user_id role_ids choice reason now,
        vote_cmd s channel_id user_id role_ids choice reason now =
          .error .noActiveMotion) ∧
    (∀ channel_id user_id role_ids choice reason now s' out,
      vote_cmd s channel_id user_id role_ids choice reason now = .ok (s', out) →
      m ∈ s'.motions ∧
      s'.votes.filter (fun v => decide (v.motion_id = m.id)) =
        s.votes.filter (fun v => decide (v.motion_id = m.id))) := by
  refine ⟨?_, ?_, ?_, ?_, ?_⟩
  · intro st res ca now
    have := List.mem_map_of_mem
      (fun (mm : MotionRow) => if mm.id = m.id then { mm with status := st, result := res, closed_at := some (ca.getD now) } else mm)
      hm
    simpa [end_motion] using this
  · intro channel_id council hcoun hact user_id is_admin now
    exact motion_kill_no_active hcoun hact user_id is_admin now
  · intro channel_id user_id is_admin now s'' hok
    obtain ⟨council, motion, hcoun, hact, hauth, hs''⟩ := motion_kill_ok_inversion hok
    obtain ⟨hmem, hmc, hms⟩ := get_active_motion_mem hact
    have hidne : m.id ≠ motion.id := by
      intro heq
      exact hterm ((List.inj_on_of_nodup_map hids hm hmem heq) ▸ hms)
    rw [hs'']
    have := List.mem_map_of_mem
      (fun (mm : MotionRow) => if mm.id = motion.id then { mm with status := MotionStatus.killed, result := some "killed", closed_at := some now } else mm)
      hm
    simpa [end_motion, hidne] using this
  · intro channel_id council hcoun hact user_id role_ids choice reason now
    exact vote_cmd_no_active hcoun hact user_id role_ids choice reason now
  · intro channel_id user_id role_ids choice reason now s' out hok
    obtain ⟨council, motion, hcoun, hact, hout, hvotes, hpass, hmot, -, -⟩ :=
      vote_cmd_ok_inversion hok
    obtain ⟨hmem, hmc, hms⟩ := get_active_motion_mem hact
    have hidne : m.id ≠ motion.id := by
      intro heq
      exact hterm ((List.inj_on_of_nodup_map hids hm hmem heq) ▸ hms)
    constructor
    · rw [hmot]
      split
      · have := List.mem_map_of_mem
          (fun (mm : MotionRow) => if mm.id = motion.id then { mm with status := MotionStatus.passed, result := some "passed", closed_at := some now } else mm)
          hm
        simpa [hidne] using this
      · exact hm
    · rw [hvotes]
      exact upsertVote_filter_other_motion s.votes motion.id user_id choice reason
        _ m.id hidne

/-- C6 witness: in the state whose only motion is already passed, both the
kill command and a vote attempt deterministically fail with the
no-active-motion error. -/
theorem terminal_motion_ops_witness :
    motionClosed ∈ exampleClosed.motions ∧ motionClosed.status ≠ .active ∧
    motion_kill exampleClosed 100 7 true 9 = .error .noActiveMotion ∧
    vote_cmd exampleClosed 100 7 [] .yes none 9 = .error .noActiveMotion := by
  have h := terminal_motion_ops exampleClosed motionClosed
    (by simp [exampleClosed]) (by simp [exampleClosed]) (by decide)
  exact ⟨by simp [exampleClosed], by decide,
    h.2.1 100 councilA rfl rfl 7 true 9,
    h.2.2.2.1 100 councilA rfl rfl 7 [] .yes none 9⟩

end Votum
